import Mathlib

/-!
# asterid::cicada — connection I/O, sendfile helper, listener and server loops

A shallow embedding of `src/cicada.cc`.  System calls (`recv`, `send`,
`sendfile`, `open`, `fstat`, `accept4`) are passed in as functions of the
operating-system state, so every statement below quantifies over what the
operating system may answer.  `size_t` values are naturals reduced modulo
`2 ^ 64` where the source subtracts or adds; `ssize_t` and `off_t` values are
integers.
-/

namespace asterid.cicada

/-! ## Machine integers, errno, buffers -/

/-- Number of values of a `size_t`. -/
def SIZE_MOD : Nat := 2 ^ 64

/-- Conversion of a signed value to `size_t` (wraps modulo `2 ^ 64`). -/
def to_size_t (x : Int) : Nat := (x % (SIZE_MOD : Int)).toNat

/-- The `errno` value for "try again" (Linux). -/
def EAGAIN : Int := 11

/-- The `errno` value for "operation would block" (Linux: same as `EAGAIN`). -/
def EWOULDBLOCK : Int := 11

/-- `#define TMPBUF_SIZE 512` -/
def TMPBUF_SIZE : Nat := 512

/-- The dynamic buffer `byte_buffer`: a sequence of bytes. -/
abbrev byte_buffer := List UInt8

/-- What one `recv(FD, buf, buf_len, 0)` call leaves behind: its return value,
`errno`, and the bytes it stored at the start of `buf`. -/
structure recv_result where
  e : Int
  errno : Int
  data : List UInt8
deriving DecidableEq, Repr

/-- What one `send` or `sendfile` call leaves behind: its return value and `errno`. -/
structure sys_result where
  e : Int
  errno : Int
deriving DecidableEq, Repr

/-! ## connection::read / write / write_consume / sendfile -/

/-- `ssize_t connection::read(char * buf, size_t buf_len)` (cicada.cc 67-78).
Returns the result, the content of `buf` and the next operating-system state. -/
def connection.read {σ : Type} (recv : σ → Nat → recv_result × σ) (os : σ) (buf_len : Nat) :
    Int × List UInt8 × σ :=
  let r := recv os buf_len
  let e := r.1.e
  if e = 0 then (-1, r.1.data, r.2)
  else if e < 0 then
    if r.1.errno = EAGAIN ∨ r.1.errno = EWOULDBLOCK then (0, r.1.data, r.2)
    else (-1, r.1.data, r.2)
  else (e, r.1.data, r.2)

/-- `ssize_t connection::read(byte_buffer & buf, size_t cnt)` (cicada.cc 80-94):
the `while (true)` loop, one iteration per unit of fuel.  `none` means the fuel
ran out before the loop left.  The result carries the returned value, the
buffer (which is passed by reference, so it keeps what was appended also when
the call fails) and the next operating-system state. -/
def connection.read_loop {σ : Type} (recv : σ → Nat → recv_result × σ) :
    Nat → σ → byte_buffer → Nat → Int → Option (Int × byte_buffer × σ)
  | 0, _, _, _, _ => none
  | fuel + 1, os, buf, cnt, ret =>
    let readnum := if cnt < TMPBUF_SIZE then cnt else TMPBUF_SIZE
    let r := connection.read recv os readnum
    let e := r.1
    if e < 0 then some (-1, buf, r.2.2)
    else if e = 0 then some (ret, buf, r.2.2)
    else
      let ret1 := ret + e
      let cnt1 := to_size_t ((cnt : Int) - e)
      let buf1 := buf ++ r.2.1.take e.toNat
      if e.toNat < readnum then some (ret1, buf1, r.2.2)
      else connection.read_loop recv fuel r.2.2 buf1 cnt1 ret1

/-- `connection::read(byte_buffer &, size_t)`: the loop entered with `ret = 0`. -/
def connection.read_buffer {σ : Type} (recv : σ → Nat → recv_result × σ)
    (fuel : Nat) (os : σ) (buf : byte_buffer) (cnt : Nat) : Option (Int × byte_buffer × σ) :=
  connection.read_loop recv fuel os buf cnt 0

/-- `ssize_t connection::write(char const * buf, size_t buf_len)` (cicada.cc 96-106). -/
def connection.write (send : List UInt8 → Nat → sys_result) (buf : List UInt8) (buf_len : Nat) :
    Int :=
  let r := send buf buf_len
  if r.e < 0 then
    if r.errno = EAGAIN ∨ r.errno = EWOULDBLOCK then 0 else -1
  else r.e

/-- `ssize_t connection::write_consume(byte_buffer & buf, size_t cnt)`
(cicada.cc 114-122): the returned value and the buffer afterwards. -/
def connection.write_consume (send : List UInt8 → Nat → sys_result) (buf : byte_buffer)
    (cnt : Nat) : Int × byte_buffer :=
  let cnt := if cnt > buf.length then buf.length else cnt
  if cnt = 0 then (0, buf)
  else
    let e := connection.write send buf cnt
    if e ≤ 0 then (e, buf)
    else if e.toNat = buf.length then (e, [])
    else (e, buf.drop e.toNat)

/-- `ssize_t connection::sendfile(int fd, off_t * offs, size_t size)`
(cicada.cc 124-134): the returned value and `*offs` afterwards.  The system
call answers with its result and the offset it advanced to. -/
def connection.sendfile (sys_sendfile : Int → Int → Nat → sys_result × Int)
    (fd : Int) (offs : Int) (size : Nat) : Int × Int :=
  let r := sys_sendfile fd offs size
  if r.1.e < 0 then
    if r.1.errno = EAGAIN ∨ r.1.errno = EWOULDBLOCK then (0, r.2) else (-1, r.2)
  else (r.1.e, r.2)

/-! ## sendfile_helper -/

/-- The faults of `sendfile_helper` construction. -/
inductive exception where
  | sendfile_notfound
  | sendfile_notfile
  | sendfile_badoffset
deriving DecidableEq, Repr

/-- The fields of `struct stat` the constructor looks at. -/
structure stat where
  is_reg : Bool
  st_size : Int
deriving DecidableEq, Repr

/-- `struct sendfile_helper::private_data` (cicada.cc 29-33). -/
structure private_data where
  fd : Int
  finfo : stat
  offset : Int
  count : Nat
deriving DecidableEq, Repr

/-- The constructor of `private_data` (cicada.cc 34-41).  The member
initialisers `offset(offset), count(count)` copy the parameters into the
members.  Inside the body the names `offset` and `count` denote the
constructor's parameters, which hide the members of the same name, so the
assignment on line 40 changes the parameter `count`; the value returned next to
the object is that parameter when the body ends. -/
def private_data.construct (sys_open : String → Int) (sys_fstat : Int → stat)
    (path : String) (offset : Int) (count : Nat) : Except exception (private_data × Nat) :=
  let member_offset := offset
  let member_count := count
  let fd := sys_open path
  if fd < 0 then Except.error exception.sendfile_notfound
  else
    let finfo := sys_fstat fd
    if !finfo.is_reg then Except.error exception.sendfile_notfile
    else if offset > finfo.st_size then Except.error exception.sendfile_badoffset
    else
      let count :=
        if (to_size_t offset + count) % SIZE_MOD > to_size_t finfo.st_size
        then to_size_t (finfo.st_size - offset) else count
      Except.ok ({ fd := fd, finfo := finfo, offset := member_offset, count := member_count }, count)

/-- `sendfile_helper::sendfile_helper(path, offset, count)` (cicada.cc 44-46):
the helper holds the constructed `private_data`. -/
def sendfile_helper.create (sys_open : String → Int) (sys_fstat : Int → stat)
    (path : String) (offset : Int) (count : Nat) : Except exception private_data :=
  (private_data.construct sys_open sys_fstat path offset count).map Prod.fst

/-- `bool sendfile_helper::is_done()` (cicada.cc 48-50). -/
def sendfile_helper.is_done (data : private_data) : Bool :=
  data.count == 0

/-- `ssize_t sendfile_helper::work(connection & con)` (cicada.cc 52-57): the
returned value and the helper afterwards. -/
def sendfile_helper.work (sys_sendfile : Int → Int → Nat → sys_result × Int)
    (data : private_data) : Int × private_data :=
  let r := connection.sendfile sys_sendfile data.fd data.offset data.count
  let amt := r.1
  let data := { data with offset := r.2 }
  if amt < 0 then (-1, data)
  else (amt, { data with count := to_size_t ((data.count : Int) - amt) })

/-- Successive `work()` calls, the operating system answering the k-th call
with the k-th function: the returned values in order and the helper afterwards. -/
def sendfile_helper.work_seq :
    List (Int → Int → Nat → sys_result × Int) → private_data → List Int × private_data
  | [], data => ([], data)
  | f :: fs, data =>
    let r := sendfile_helper.work f data
    let rest := sendfile_helper.work_seq fs r.2
    (r.1 :: rest.1, rest.2)

/-! ## socket, connection, listener -/

/-- `struct socket`: the descriptor `FD` (-1 when none is owned) and the peer
address captured by `accept4`. -/
structure socket where
  FD : Int
  addr : Nat
deriving DecidableEq, Repr

/-- `struct connection`: a `socket` used for byte I/O; it adds no field. -/
structure connection where
  FD : Int
  addr : Nat
deriving DecidableEq, Repr

/-- `socket::~socket()` (cicada.cc 22-27): the descriptors shut down and closed
by destroying a socket whose descriptor is `FD`. -/
def socket.destroy (FD : Int) : List Int :=
  if FD ≠ -1 then [FD] else []

/-- `connection::connection(socket && sock)` (cicada.cc 59-61): the new
connection and `sock` afterwards. -/
def connection.from_socket (sock : socket) : connection × socket :=
  ({ FD := sock.FD, addr := sock.addr }, { sock with FD := -1 })

/-- `connection::connection(connection && sock)` (cicada.cc 63-65): the new
connection and `sock` afterwards. -/
def connection.move (sock : connection) : connection × connection :=
  ({ FD := sock.FD, addr := sock.addr }, { sock with FD := -1 })

/-- `void listener::accept()` (cicada.cc 163-171): the `while (true)` loop, one
iteration per unit of fuel; `none` means the fuel ran out before the loop left.
`accept4` answers with the new descriptor (-1 when it fails) and the peer
address.  The callback receives the connection built from `std::move(temp)`
and answers with the state it leaves and with that temporary connection as it
leaves it; the temporary and then `temp` are destroyed when the iteration
ends.  The result carries the operating-system state, the callback's state and
the descriptors closed by those destructors, oldest first. -/
def listener.accept {σ κ : Type} (accept4 : σ → (Int × Nat) × σ)
    (accept_cb : connection → κ → κ × connection) :
    Nat → σ → κ → List Int → Option (σ × κ × List Int)
  | 0, _, _, _ => none
  | fuel + 1, os, k, closed =>
    let r := accept4 os
    let temp : socket := { FD := r.1.1, addr := r.1.2 }
    if temp.FD = -1 then some (r.2, k, closed ++ socket.destroy temp.FD)
    else
      let c := connection.from_socket temp
      let k1 := accept_cb c.1 k
      listener.accept accept4 accept_cb fuel r.2 k1.1
        (closed ++ socket.destroy k1.2.FD ++ socket.destroy c.2.FD)

/-- The listening socket as the operating system sees it: the pending inbound
connections, oldest first, each with the descriptor it will get and its peer
address.  `accept4` on a non-blocking listener takes the oldest one, or fails
with -1 when none is pending. -/
def queue_accept4 : List (Nat × Nat) → (Int × Nat) × List (Nat × Nat)
  | [] => ((-1, 0), [])
  | c :: rest => (((c.1 : Int), c.2), rest)

/-! ## server -/

/-- `enum reason`: why a worker is asked to look at an instance. -/
inductive reason where
  | pulse
deriving DecidableEq, Repr

/-- `struct detail`: the payload handed to the protocol. -/
structure detail where
  r : reason
deriving DecidableEq, Repr

/-- `struct signal`: the bit mask `m` a protocol invocation answers with. -/
structure signal where
  m : Nat
deriving DecidableEq, Repr

/-- `struct server::instance`: a connection, its protocol object and the mutex
`use_lock` (`true` while held).  `id` stands for the identity of the heap
object, which is what `shared_ptr` and `weak_ptr` compare. -/
structure server_instance (P : Type) where
  id : Nat
  con : connection
  proto : P
  use_lock : Bool

/-- A master-to-worker message: a weak reference to an instance and a reason. -/
structure m2w_message where
  i : Nat
  r : reason
deriving DecidableEq, Repr

/-- A worker-to-master message: a weak reference to an instance and a signal. -/
structure w2m_message where
  i : Nat
  sig : signal
deriving DecidableEq, Repr

/-- The state of `struct server` the loops work on: the protocol factory
`pib`, the registry `instances`, the two queues (front of the queue first), and
the identity the next `new instance` gets. -/
structure server (P : Type) where
  pib : Unit → P
  instances : List (server_instance P)
  m2w_queue : List m2w_message
  w2m_queue : List w2m_message
  next_id : Nat

/-- What `inst->proto->ready(inst->con, d)` does: it returns a signal or throws,
and leaves the protocol object and the connection in some state. -/
inductive ready_outcome (P : Type) where
  | returns (sig : signal) (proto : P) (con : connection)
  | throws (proto : P) (con : connection)

/-- `void server::accept_connection(connection && con)` (cicada.cc 196-198)
with `server::instance::instance` (cicada.cc 265): the server afterwards and
`con` as the move leaves it. -/
def server.accept_connection {P : Type} (con : connection) (s : server P) :
    server P × connection :=
  let moved := connection.move con
  let inst : server_instance P :=
    { id := s.next_id, con := moved.1, proto := s.pib (), use_lock := false }
  ({ s with instances := inst :: s.instances, next_id := s.next_id + 1 }, moved.2)

/-- The loop of `server::master_loop` over the worker-to-master queue
(cicada.cc 204-215), run with `w2m_lock` held: the registry when the queue is
empty.  `msg.i.lock()` finds the instance when the registry still owns it.
`inst->use_lock.lock()` returns only when the mutex is free; no other thread
runs inside this function, so on a held mutex the loop never returns (`none`). -/
def server.drain_w2m {P : Type} (terminate : Nat) :
    List w2m_message → List (server_instance P) → Option (List (server_instance P))
  | [], instances => some instances
  | msg :: queue, instances =>
    match instances.find? (fun x => x.id == msg.i) with
    | none => server.drain_w2m terminate queue instances
    | some inst =>
      if msg.sig.m &&& terminate ≠ 0 then
        if inst.use_lock then none
        else server.drain_w2m terminate queue (instances.filter (fun x => x.id != inst.id))
      else server.drain_w2m terminate queue instances

/-- `void server::master_loop()` (cicada.cc 200-223): accept, drain the
worker-to-master queue, then enqueue one pulse per instance of the registry.
The result carries the listener's pending queue and the server afterwards. -/
def server.master_loop {P : Type} (terminate : Nat) (fuel : Nat)
    (pending : List (Nat × Nat)) (s : server P) : Option (List (Nat × Nat) × server P) :=
  match listener.accept queue_accept4 server.accept_connection fuel pending s [] with
  | none => none
  | some (pending1, s1, _) =>
    match server.drain_w2m terminate s1.w2m_queue s1.instances with
    | none => none
    | some instances =>
      some (pending1,
        { s1 with
          instances := instances
          w2m_queue := []
          m2w_queue := s1.m2w_queue ++ instances.map (fun x => { i := x.id, r := reason.pulse }) })

/-- One iteration of the inner `while (true)` loop of `server::worker_run`
(cicada.cc 233-261).  `none` is the `break` on an empty queue; otherwise the
server after the iteration.  `sig_init` is the value of `signal sig {}`. -/
def server.worker_iteration {P : Type} (terminate : Nat) (sig_init : signal)
    (ready : P → connection → detail → ready_outcome P) (s : server P) : Option (server P) :=
  match s.m2w_queue with
  | [] => none
  | msg :: queue =>
    let s := { s with m2w_queue := queue }
    match s.instances.find? (fun x => x.id == msg.i) with
    | none => some s
    | some inst =>
      if inst.use_lock then some s
      else
        let locked : server_instance P := { inst with use_lock := true }
        let d : detail := { r := msg.r }
        let sig := sig_init
        let after : signal × P × connection :=
          match ready locked.proto locked.con d with
          | ready_outcome.returns sig1 proto con => (sig1, proto, con)
          | ready_outcome.throws proto con => ({ sig with m := sig.m ||| terminate }, proto, con)
        let unlocked : server_instance P :=
          { locked with proto := after.2.1, con := after.2.2, use_lock := false }
        some { s with
          instances := s.instances.map (fun x => if x.id == inst.id then unlocked else x)
          w2m_queue := s.w2m_queue ++ [{ i := msg.i, sig := after.1 }] }

/-! ## Concrete operating-system behaviours used at concrete inputs -/

/-- A socket on which every receive delivers exactly as many bytes as it is
asked for (a receive asked for zero bytes returns zero); the state is the
position in the stream, and byte `i` of the stream is `i` modulo 256. -/
def exact_recv (pos : Nat) (n : Nat) : recv_result × Nat :=
  ({ e := n, errno := 0, data := (List.range n).map (fun i => UInt8.ofNat (pos + i)) }, pos + n)

/-- A file system holding one regular file of the given size at descriptor 3. -/
def one_file_open (_path : String) : Int := 3

/-- `fstat` for `one_file_open`: a regular file of the given size. -/
def one_file_fstat (size : Int) (_fd : Int) : stat := { is_reg := true, st_size := size }

/-- `sendfile(2)` on a file of the given size with a socket that takes
everything: it sends the bytes between the offset and the end of the file, at
most as many as asked for, and advances the offset by that amount. -/
def file_sendfile (size : Int) (_fd : Int) (offs : Int) (n : Nat) : sys_result × Int :=
  let k := min (n : Int) (max (size - offs) 0)
  ({ e := k, errno := 0 }, offs + k)

/-- A send that takes at most two bytes of what it is offered. -/
def send_two (_data : List UInt8) (n : Nat) : sys_result := { e := min n 2, errno := 0 }

/-- A `sendfile(2)` that reports having sent exactly what it was asked to send. -/
def echo_sendfile (_fd : Int) (offs : Int) (n : Nat) : sys_result × Int :=
  ({ e := n, errno := 0 }, offs + n)

/-- A callback that writes down every connection it is handed and takes the
descriptor out of it. -/
def record_cb (con : connection) (log : List connection) : List connection × connection :=
  (log ++ [con], (connection.move con).2)

/-- A server with two idle instances (1 and 2), a result for instance 1 whose
signal is the terminate bit 1, and a pulse for each instance. -/
def demo_server : server Nat :=
  { pib := fun _ => 0
    instances := [{ id := 1, con := { FD := 7, addr := 100 }, proto := 0, use_lock := false },
                  { id := 2, con := { FD := 9, addr := 200 }, proto := 0, use_lock := false }]
    m2w_queue := [{ i := 1, r := reason.pulse }, { i := 2, r := reason.pulse }]
    w2m_queue := [{ i := 1, sig := { m := 1 } }]
    next_id := 3 }

/-- The server `demo_server` while a worker holds the `use_lock` of instance 1. -/
def busy_server : server Nat :=
  { demo_server with
    instances := [{ id := 1, con := { FD := 7, addr := 100 }, proto := 0, use_lock := true },
                  { id := 2, con := { FD := 9, addr := 200 }, proto := 0, use_lock := false }] }

/-- A protocol whose entry point always throws. -/
def throwing_ready (proto : Nat) (con : connection) (_d : detail) : ready_outcome Nat :=
  ready_outcome.throws proto con

/-- A protocol whose entry point always returns the signal 4. -/
def returning_ready (proto : Nat) (con : connection) (_d : detail) : ready_outcome Nat :=
  ready_outcome.returns { m := 4 } proto con

/-! ## Theorems: connection I/O -/

/-- C5: whatever the receive on a buffer of capacity `max_len` answers (never
more than `max_len` bytes), `connection::read(buffer, max_len)` returns fail
(-1) for a zero-length receive and for an error other than would-block, returns
0 exactly when the receive failed with would-block, and otherwise returns the
received count `n` with `1 ≤ n ≤ max_len`; a zero-length receive is never
reported as 0. -/
theorem read_classifies_receive {σ : Type} (recv : σ → Nat → recv_result × σ) (os : σ)
    (max_len : Nat) (hcap : (recv os max_len).1.e ≤ max_len) :
    ((recv os max_len).1.e = 0 → (connection.read recv os max_len).1 = -1) ∧
    ((recv os max_len).1.e < 0 →
      ¬ ((recv os max_len).1.errno = EAGAIN ∨ (recv os max_len).1.errno = EWOULDBLOCK) →
      (connection.read recv os max_len).1 = -1) ∧
    ((connection.read recv os max_len).1 = 0 ↔
      ((recv os max_len).1.e < 0 ∧
        ((recv os max_len).1.errno = EAGAIN ∨ (recv os max_len).1.errno = EWOULDBLOCK))) ∧
    (0 < (recv os max_len).1.e →
      (connection.read recv os max_len).1 = (recv os max_len).1.e ∧
      1 ≤ (connection.read recv os max_len).1 ∧
      (connection.read recv os max_len).1 ≤ max_len) ∧
    ((recv os max_len).1.e = 0 → (connection.read recv os max_len).1 ≠ 0) := by
  unfold connection.read
  simp only []
  by_cases h0 : (recv os max_len).1.e = 0
  · simp [h0]
  · by_cases hneg : (recv os max_len).1.e < 0
    · by_cases hwb : (recv os max_len).1.errno = EAGAIN ∨ (recv os max_len).1.errno = EWOULDBLOCK
      · simp [h0, hneg, hwb]
        omega
      · simp [h0, hneg, hwb]
        omega
    · simp [h0, hneg]
      omega

/-- Witness for C5: a receive of 3 bytes into a buffer of capacity 3. -/
theorem read_classifies_receive_witness :
    (connection.read exact_recv 0 3).1 = 3 ∧
    1 ≤ (connection.read exact_recv 0 3).1 ∧ (connection.read exact_recv 0 3).1 ≤ 3 :=
  (read_classifies_receive exact_recv 0 3 (by decide)).2.2.2.1 (by decide)

/-- C4: when the underlying send never reports more bytes than it was asked to
send, `write_consume(b, max_len)` returning `r` leaves the buffer equal to `b`
without its first `max r 0` bytes: the buffer never grows, a partial write of
`k < length b` bytes leaves the unsent suffix, a write of the whole buffer
leaves it empty, a result of 0 or -1 leaves it unchanged, and
`r ≤ min max_len (length b)`. -/
theorem write_consume_drops_sent_prefix (send : List UInt8 → Nat → sys_result)
    (b : byte_buffer) (max_len : Nat) (hsend : ∀ data n, (send data n).e ≤ n) :
    (connection.write_consume send b max_len).2
        = b.drop (max (connection.write_consume send b max_len).1 0).toNat ∧
    (connection.write_consume send b max_len).2.length ≤ b.length ∧
    (∀ k : Nat, (connection.write_consume send b max_len).1 = k → k < b.length →
      (connection.write_consume send b max_len).2 = b.drop k) ∧
    ((connection.write_consume send b max_len).1 = b.length →
      (connection.write_consume send b max_len).2 = []) ∧
    ((connection.write_consume send b max_len).1 = 0 ∨
        (connection.write_consume send b max_len).1 = -1 →
      (connection.write_consume send b max_len).2 = b) ∧
    (connection.write_consume send b max_len).1 ≤ min max_len b.length := by
  have hw : ∀ n, connection.write send b n ≤ n := by
    intro n
    have := hsend b n
    unfold connection.write
    simp only []
    split_ifs <;> omega
  unfold connection.write_consume
  simp only []
  by_cases hc : (if max_len > b.length then b.length else max_len) = 0
  · rw [if_pos hc]
    refine ⟨by simp, le_refl _, ?_, ?_, ?_, by simp⟩
    · intro k hk _
      dsimp only at hk
      have : k = 0 := by omega
      simp [this]
    · intro h
      dsimp only at h
      have : b.length = 0 := by omega
      exact List.length_eq_zero.mp this
    · intro _
      rfl
  · rw [if_neg hc]
    have hle := hw (if max_len > b.length then b.length else max_len)
    have hcnt : ((if max_len > b.length then b.length else max_len : Nat) : Int)
        ≤ min max_len b.length := by
      split_ifs <;> simp <;> omega
    generalize connection.write send b (if max_len > b.length then b.length else max_len) = e
      at hle ⊢
    have hmin : ((min max_len b.length : Nat) : Int) ≤ b.length := by
      exact_mod_cast Nat.min_le_right _ _
    by_cases hpos : e ≤ 0
    · rw [if_pos hpos]
      refine ⟨?_, le_refl _, ?_, ?_, ?_, ?_⟩
      · have : max e 0 = 0 := max_eq_right hpos
        simp [this]
      · intro k hk _
        dsimp only at hk
        have : k = 0 := by omega
        simp [this]
      · intro h
        dsimp only at h
        have : b.length = 0 := by omega
        exact List.length_eq_zero.mp this
      · intro _
        rfl
      · show e ≤ ((min max_len b.length : Nat) : Int)
        omega
    · rw [if_neg hpos]
      have hmax : max e 0 = e := max_eq_left (by omega)
      by_cases hall : e.toNat = b.length
      · rw [if_pos hall]
        refine ⟨?_, by simp, ?_, ?_, ?_, ?_⟩
        · simp [hmax, hall]
        · intro k hk hlt
          dsimp only at hk
          omega
        · intro _
          rfl
        · intro h
          dsimp only at h
          omega
        · show e ≤ ((min max_len b.length : Nat) : Int)
          omega
      · rw [if_neg hall]
        refine ⟨?_, by simp, ?_, ?_, ?_, ?_⟩
        · simp [hmax]
        · intro k hk _
          dsimp only at hk
          have hk2 : e.toNat = k := by omega
          rw [hk2]
        · intro h
          dsimp only at h
          omega
        · intro h
          dsimp only at h
          omega
        · show e ≤ ((min max_len b.length : Nat) : Int)
          omega

/-- Witness for C4: three bytes offered, two sent, the third is left. -/
theorem write_consume_drops_sent_prefix_witness :
    (connection.write_consume send_two [1, 2, 3] 8).1 = 2 ∧
    (connection.write_consume send_two [1, 2, 3] 8).2 = [3] := by
  have h := write_consume_drops_sent_prefix send_two [1, 2, 3] 8
    (by intro d n; simp only [send_two]; omega)
  have hr : (connection.write_consume send_two [1, 2, 3] 8).1 = 2 := by decide
  exact ⟨hr, by rw [h.1, hr]; rfl⟩

/-- C3 (evaluation at the failing input): on a connection where every receive
returns exactly as many bytes as it is asked for, and a receive asked for zero
bytes returns zero, `connection::read(dynamic_buffer, 1)` appends the one byte
and then returns -1: after the count has reached zero the loop issues a
zero-length receive, whose result 0 the single-chunk read reports as fail. -/
theorem read_buffer_exact_supply_returns_fail :
    (∀ pos n, (exact_recv pos n).1.e = n ∧ (exact_recv pos n).1.data.length = n) ∧
    connection.read_buffer exact_recv 2 0 [] 1 = some (-1, [0], 1) ∧
    connection.read_buffer exact_recv 4 0 [] 600 ≠ some (600, (List.range 600).map UInt8.ofNat, 600) := by
  refine ⟨?_, by decide, by decide⟩
  intro pos n
  simp [exact_recv]

/-! ## Theorems: sendfile_helper -/

/-- C1 (evaluation at the failing input): for a regular file of size 10, offset 4
and requested count 100, the constructor computes the clamped value 6 in its
parameter but the helper holds 100; the helper built with count 6 holds 6.
`work()` asks the connection for 100 bytes in the first case and 6 in the
second, and against the real file the first is not done after sending the 6
bytes that exist while the second is. -/
theorem sendfile_helper_count_not_clamped :
    private_data.construct one_file_open (one_file_fstat 10) "f" 4 100
      = Except.ok ({ fd := 3, finfo := { is_reg := true, st_size := 10 }, offset := 4,
                     count := 100 }, 6) ∧
    sendfile_helper.create one_file_open (one_file_fstat 10) "f" 4 100
      = Except.ok { fd := 3, finfo := { is_reg := true, st_size := 10 }, offset := 4,
                    count := 100 } ∧
    sendfile_helper.create one_file_open (one_file_fstat 10) "f" 4 6
      = Except.ok { fd := 3, finfo := { is_reg := true, st_size := 10 }, offset := 4,
                    count := 6 } ∧
    (sendfile_helper.work echo_sendfile
      { fd := 3, finfo := { is_reg := true, st_size := 10 }, offset := 4, count := 100 }).1 = 100 ∧
    (sendfile_helper.work echo_sendfile
      { fd := 3, finfo := { is_reg := true, st_size := 10 }, offset := 4, count := 6 }).1 = 6 ∧
    sendfile_helper.is_done (sendfile_helper.work (file_sendfile 10)
      { fd := 3, finfo := { is_reg := true, st_size := 10 }, offset := 4, count := 100 }).2 = false ∧
    sendfile_helper.is_done (sendfile_helper.work (file_sendfile 10)
      { fd := 3, finfo := { is_reg := true, st_size := 10 }, offset := 4, count := 6 }).2 = true := by
  refine ⟨rfl, rfl, rfl, by decide, by decide, by decide, by decide⟩

/-- C2 (evaluation at the failing input): the helper constructed for a file of
size 10 with offset 4 and requested count 100 (clamped count
`min 100 (10 - 4) = 6`), after one `work()` call that returns 6, is not done
although the sum of the returned values equals the clamped count; the remaining
count is 94.  The `sendfile` used never reports more than it is asked for. -/
theorem sendfile_helper_not_done_at_clamped_count :
    (∀ fd offs n, ((file_sendfile 10 fd offs n).1.e ≤ n)) ∧
    sendfile_helper.create one_file_open (one_file_fstat 10) "f" 4 100
      = Except.ok { fd := 3, finfo := { is_reg := true, st_size := 10 }, offset := 4,
                    count := 100 } ∧
    (sendfile_helper.work_seq [file_sendfile 10]
      { fd := 3, finfo := { is_reg := true, st_size := 10 }, offset := 4, count := 100 }).1 = [6] ∧
    ([6] : List Int).sum = min 100 (10 - 4) ∧
    sendfile_helper.is_done (sendfile_helper.work_seq [file_sendfile 10]
      { fd := 3, finfo := { is_reg := true, st_size := 10 }, offset := 4, count := 100 }).2 = false ∧
    (sendfile_helper.work_seq [file_sendfile 10]
      { fd := 3, finfo := { is_reg := true, st_size := 10 }, offset := 4, count := 100 }).2.count = 94 := by
  refine ⟨?_, rfl, by decide, by decide, by decide, by decide⟩
  intro fd offs n
  simp only [file_sendfile]
  omega

/-- What the constructor does for every input: a helper that is constructed
holds the requested offset and count as they were passed, whatever the size of
the file. -/
theorem create_keeps_requested_count (sys_open : String → Int) (sys_fstat : Int → stat)
    (path : String) (offset : Int) (count : Nat) (data : private_data)
    (h : sendfile_helper.create sys_open sys_fstat path offset count = Except.ok data) :
    data.count = count ∧ data.offset = offset := by
  unfold sendfile_helper.create private_data.construct at h
  simp only [] at h
  split_ifs at h
  all_goals first
    | (simp only [Except.map] at h; cases h; exact ⟨rfl, rfl⟩)
    | (simp only [Except.map] at h; cases h)

/-- What one `work()` call does to the remaining count when `sendfile` reports
no more than it was asked for: a negative result is reported as -1 and the
count stays; otherwise the count goes down by the returned amount, which is at
most the count. -/
theorem work_count_step (f : Int → Int → Nat → sys_result × Int) (data : private_data)
    (hle : ∀ fd offs n, (f fd offs n).1.e ≤ n) (hsize : data.count < SIZE_MOD) :
    ((sendfile_helper.work f data).1 = -1 ∧
        (sendfile_helper.work f data).2.count = data.count) ∨
    (0 ≤ (sendfile_helper.work f data).1 ∧
      (sendfile_helper.work f data).1 ≤ data.count ∧
      ((sendfile_helper.work f data).2.count : Int)
        = data.count - (sendfile_helper.work f data).1) := by
  have h := hle data.fd data.offset data.count
  unfold sendfile_helper.work connection.sendfile
  simp only []
  by_cases hneg : (f data.fd data.offset data.count).1.e < 0
  · by_cases hwb : (f data.fd data.offset data.count).1.errno = EAGAIN ∨
        (f data.fd data.offset data.count).1.errno = EWOULDBLOCK
    · right
      simp only [hneg, hwb, if_true, lt_self_iff_false, if_false, le_refl, true_and]
      simp only [to_size_t, SIZE_MOD] at hsize ⊢
      omega
    · left
      simp [hneg, hwb]
  · right
    simp only [hneg, if_false]
    simp only [to_size_t, SIZE_MOD] at hsize ⊢
    omega

/-- What the code does over a sequence of `work()` calls when `sendfile` never
reports more than it was asked for: the remaining count never wraps below zero
and equals the count the helper was constructed with minus the non-negative
values returned, so `is_done()` holds exactly when those values sum to the
count held at construction. -/
theorem work_seq_count (fs : List (Int → Int → Nat → sys_result × Int)) :
    ∀ (data : private_data),
      (∀ f ∈ fs, ∀ fd offs n, (f fd offs n).1.e ≤ n) → data.count < SIZE_MOD →
      ((sendfile_helper.work_seq fs data).2.count : Int)
          + (((sendfile_helper.work_seq fs data).1.map (fun r => max r 0)).sum) = data.count ∧
      (sendfile_helper.is_done (sendfile_helper.work_seq fs data).2 = true ↔
        ((sendfile_helper.work_seq fs data).1.map (fun r => max r 0)).sum = data.count) := by
  induction fs with
  | nil =>
    intro data _ _
    simp only [sendfile_helper.work_seq, sendfile_helper.is_done, List.map_nil, List.sum_nil,
      add_zero, beq_iff_eq, true_and]
    omega
  | cons f fs ih =>
    intro data hle hsize
    have hstep := work_count_step f data (hle f (List.mem_cons_self _ _)) hsize
    have hsize2 : (sendfile_helper.work f data).2.count < SIZE_MOD := by
      rcases hstep with ⟨_, h2⟩ | ⟨h1, _, h3⟩ <;> omega
    obtain ⟨ih1, _⟩ := ih (sendfile_helper.work f data).2
      (fun g hg => hle g (List.mem_cons_of_mem _ hg)) hsize2
    have hsum : ((sendfile_helper.work_seq (f :: fs) data).2.count : Int)
        + (((sendfile_helper.work_seq (f :: fs) data).1.map (fun r => max r 0)).sum)
        = data.count := by
      simp only [sendfile_helper.work_seq, List.map_cons, List.sum_cons]
      rcases hstep with ⟨h1, h2⟩ | ⟨h1, _, h3⟩
      · rw [h1]
        have : max (-1 : Int) 0 = 0 := by decide
        rw [this]
        omega
      · rw [max_eq_left h1]
        omega
    refine ⟨hsum, ?_⟩
    simp only [sendfile_helper.is_done, beq_iff_eq]
    constructor
    · intro h
      rw [h] at hsum
      simpa using hsum
    · intro h
      rw [h] at hsum
      omega

/-- What the code does on a connection where every receive returns exactly as
many bytes as it is asked for (zero when asked for zero): whatever the
requested count, the buffered read ends by returning -1. -/
theorem read_loop_exact_supply_fails {σ : Type} (recv : σ → Nat → recv_result × σ)
    (hexact : ∀ os n, (recv os n).1.e = n) :
    ∀ (fuel cnt : Nat) (os : σ) (buf : byte_buffer) (ret : Int),
      cnt < fuel → cnt < SIZE_MOD →
      ∃ buf1 os1, connection.read_loop recv fuel os buf cnt ret = some (-1, buf1, os1) := by
  intro fuel
  induction fuel with
  | zero =>
    intro cnt os buf ret h
    exact absurd h (Nat.not_lt_zero _)
  | succ fuel ih =>
    intro cnt os buf ret hfuel hsize
    unfold connection.read_loop
    have hread : ∀ n : Nat, (connection.read recv os n).1 = if n = 0 then -1 else (n : Int) := by
      intro n
      unfold connection.read
      simp only [hexact]
      by_cases hn : n = 0
      · simp [hn]
      · have h1 : ¬ ((n : Int) = 0) := by omega
        have h2 : ¬ ((n : Int) < 0) := by omega
        simp [hn, h1, h2]
    simp only [hread]
    by_cases hc : cnt = 0
    · subst hc
      simp [TMPBUF_SIZE]
    · have hpos : (if cnt < TMPBUF_SIZE then cnt else TMPBUF_SIZE) ≠ 0 := by
        simp only [TMPBUF_SIZE]
        split_ifs <;> omega
      have hrle : (if cnt < TMPBUF_SIZE then cnt else TMPBUF_SIZE) ≤ cnt := by
        simp only [TMPBUF_SIZE]
        split_ifs <;> omega
      generalize (if cnt < TMPBUF_SIZE then cnt else TMPBUF_SIZE) = readnum at hpos hrle ⊢
      have h1 : ¬ ((readnum : Int) < 0) := by omega
      have h2 : ¬ ((readnum : Int) = 0) := by omega
      simp only [hpos, if_false, h1, h2, Int.toNat_ofNat, lt_self_iff_false]
      apply ih
      · simp only [to_size_t, SIZE_MOD] at hsize ⊢
        omega
      · simp only [to_size_t, SIZE_MOD] at hsize ⊢
        omega

/-! ## Theorems: listener -/

/-- The loop of `listener::accept` on a pending queue: with more fuel than
pending connections it returns, having handed the connections to the callback
oldest first. -/
theorem accept_loop_eq {κ : Type} (accept_cb : connection → κ → κ × connection) :
    ∀ (pending : List (Nat × Nat)) (fuel : Nat) (k : κ) (closed : List Int),
      pending.length < fuel →
      listener.accept queue_accept4 accept_cb fuel pending k closed
        = some ([],
            (pending.foldl (fun acc c =>
              ((accept_cb { FD := (c.1 : Int), addr := c.2 } acc.1).1,
               acc.2 ++ socket.destroy (accept_cb { FD := (c.1 : Int), addr := c.2 } acc.1).2.FD))
              (k, closed)).1,
            (pending.foldl (fun acc c =>
              ((accept_cb { FD := (c.1 : Int), addr := c.2 } acc.1).1,
               acc.2 ++ socket.destroy (accept_cb { FD := (c.1 : Int), addr := c.2 } acc.1).2.FD))
              (k, closed)).2) := by
  intro pending
  induction pending with
  | nil =>
    intro fuel k closed hfuel
    cases fuel with
    | zero => simp at hfuel
    | succ fuel => simp [listener.accept, queue_accept4, socket.destroy]
  | cons c rest ih =>
    intro fuel k closed hfuel
    cases fuel with
    | zero => simp at hfuel
    | succ fuel =>
      have hlt : rest.length < fuel := by simpa using hfuel
      have hne : ¬ ((c.1 : Int) = -1) := by omega
      simp only [listener.accept, queue_accept4, hne, if_false, connection.from_socket,
        List.foldl_cons]
      rw [ih fuel _ _ hlt]
      simp [socket.destroy]

/-- The log kept by `record_cb` over a list of pending connections. -/
theorem record_cb_foldl (pending : List (Nat × Nat)) :
    ∀ (log : List connection) (closed : List Int),
      pending.foldl (fun acc c =>
        ((record_cb { FD := (c.1 : Int), addr := c.2 } acc.1).1,
         acc.2 ++ socket.destroy (record_cb { FD := (c.1 : Int), addr := c.2 } acc.1).2.FD))
        (log, closed)
      = (log ++ pending.map (fun c => ({ FD := (c.1 : Int), addr := c.2 } : connection)), closed) := by
  induction pending with
  | nil => intro log closed; simp
  | cons c rest ih =>
    intro log closed
    simp only [List.foldl_cons, List.map_cons]
    have h : socket.destroy (record_cb { FD := (c.1 : Int), addr := c.2 } log).2.FD = [] := by
      simp [record_cb, connection.move, socket.destroy]
    rw [h, List.append_nil]
    have h2 : (record_cb { FD := (c.1 : Int), addr := c.2 } log).1
        = log ++ [({ FD := (c.1 : Int), addr := c.2 } : connection)] := rfl
    rw [h2, ih]
    simp

/-- C6: for every finite list of pending inbound connections `c1..cn`, one call
of `listener::accept()` (given more fuel than `n`) returns with the pending
queue empty, having invoked the callback once per pending connection in
acceptance order, each time with the connection that carries that connection's
descriptor while `temp` no longer does (nothing is closed by `temp`); with the
recording callback the log is exactly `c1, ..., cn`, so there are exactly `n`
invocations. -/
theorem accept_drains_pending_in_order {κ : Type}
    (accept_cb : connection → κ → κ × connection) (pending : List (Nat × Nat))
    (fuel : Nat) (k : κ) (hfuel : pending.length < fuel) :
    listener.accept queue_accept4 accept_cb fuel pending k []
      = some ([],
          (pending.foldl (fun acc c =>
            ((accept_cb { FD := (c.1 : Int), addr := c.2 } acc.1).1,
             acc.2 ++ socket.destroy (accept_cb { FD := (c.1 : Int), addr := c.2 } acc.1).2.FD))
            (k, [])).1,
          (pending.foldl (fun acc c =>
            ((accept_cb { FD := (c.1 : Int), addr := c.2 } acc.1).1,
             acc.2 ++ socket.destroy (accept_cb { FD := (c.1 : Int), addr := c.2 } acc.1).2.FD))
            (k, [])).2) ∧
    listener.accept queue_accept4 record_cb fuel pending [] []
      = some ([], pending.map (fun c => ({ FD := (c.1 : Int), addr := c.2 } : connection)), []) ∧
    (pending.map (fun c => ({ FD := (c.1 : Int), addr := c.2 } : connection))).length
      = pending.length := by
  refine ⟨accept_loop_eq accept_cb pending fuel k [] hfuel, ?_, by simp⟩
  rw [accept_loop_eq record_cb pending fuel [] [] hfuel, record_cb_foldl]
  simp

/-- Witness for C6: two pending connections (descriptors 7 and 9) are handed
to the callback in that order. -/
theorem accept_drains_pending_in_order_witness :
    listener.accept queue_accept4 record_cb 3 [(7, 100), (9, 200)] [] []
      = some ([], [{ FD := 7, addr := 100 }, { FD := 9, addr := 200 }], []) :=
  (accept_drains_pending_in_order record_cb [(7, 100), (9, 200)] 3 [] (by decide)).2.1

/-! ## Theorems: server -/

/-- Whenever the drain of the worker-to-master queue returns, the registry it
returns is the old one without the instances named by a message whose signal
has the terminate bit. -/
theorem drain_w2m_eq_filter {P : Type} (terminate : Nat) :
    ∀ (queue : List w2m_message) (instances result : List (server_instance P)),
      server.drain_w2m terminate queue instances = some result →
      result = instances.filter (fun x =>
        !(queue.any (fun msg => msg.i == x.id && decide (msg.sig.m &&& terminate ≠ 0)))) := by
  intro queue
  induction queue with
  | nil =>
    intro instances result h
    simp [server.drain_w2m] at h
    simp [h]
  | cons msg queue ih =>
    intro instances result h
    unfold server.drain_w2m at h
    split at h
    · rename_i hnone
      rw [ih _ _ h]
      apply List.filter_congr
      intro x hx
      have := List.find?_eq_none.mp hnone x hx
      simp only [beq_iff_eq] at this
      have hne : (msg.i == x.id) = false := by
        simp only [beq_eq_false_iff_ne]
        exact fun e => this e.symm
      simp [hne]
    · rename_i inst hsome
      have hid : inst.id = msg.i := by
        have := List.find?_some hsome
        simpa using this
      by_cases hterm : msg.sig.m &&& terminate ≠ 0
      · rw [if_pos hterm] at h
        by_cases hlock : inst.use_lock = true
        · simp [hlock] at h
        · rw [if_neg hlock] at h
          rw [ih _ _ h, List.filter_filter]
          apply List.filter_congr
          intro x _
          by_cases hx : msg.i = x.id
          · simp [hx, hterm, hid]
          · have hx2 : ¬ x.id = msg.i := fun e => hx e.symm
            have e1 : (msg.i == x.id) = false := by simp [hx]
            have e2 : (x.id != msg.i) = true := by simp [hx2]
            simp only [hid, e1, e2, List.any_cons, Bool.false_and, Bool.false_or,
              Bool.and_true]
      · rw [if_neg hterm] at h
        rw [ih _ _ h]
        apply List.filter_congr
        intro x _
        have e1 : decide (msg.sig.m &&& terminate ≠ 0) = false := by simp [hterm]
        simp only [List.any_cons, e1, Bool.and_false, Bool.false_or]

/-- The drain of the worker-to-master queue returns when no instance that a
terminate message names has its `use_lock` held. -/
theorem drain_w2m_returns {P : Type} (terminate : Nat) :
    ∀ (queue : List w2m_message) (instances : List (server_instance P)),
      (∀ x ∈ instances, x.use_lock = true →
        ∀ msg ∈ queue, msg.i = x.id → msg.sig.m &&& terminate = 0) →
      ∃ result, server.drain_w2m terminate queue instances = some result := by
  intro queue
  induction queue with
  | nil =>
    intro instances _
    exact ⟨instances, rfl⟩
  | cons msg queue ih =>
    intro instances hfree
    have hrest : ∀ x ∈ instances, x.use_lock = true →
        ∀ m ∈ queue, m.i = x.id → m.sig.m &&& terminate = 0 :=
      fun x hx hl m hm => hfree x hx hl m (List.mem_cons_of_mem _ hm)
    unfold server.drain_w2m
    split
    · exact ih instances hrest
    · rename_i inst hsome
      have hid : inst.id = msg.i := by
        have := List.find?_some hsome
        simpa using this
      have hmem : inst ∈ instances := List.mem_of_find?_eq_some hsome
      by_cases hterm : msg.sig.m &&& terminate ≠ 0
      · rw [if_pos hterm]
        by_cases hlock : inst.use_lock = true
        · exact absurd (hfree inst hmem hlock msg (List.mem_cons_self _ _) hid.symm) hterm
        · rw [if_neg hlock]
          apply ih
          intro x hx hl m hm
          exact hrest x (List.mem_of_mem_filter hx) hl m hm
      · rw [if_neg hterm]
        exact ih instances hrest

/-- What `accept_connection` over the pending connections does to the server:
the queues stay, and the new instances, none of them locked, are put in front
of the registry. -/
theorem accept_connection_foldl {P : Type} (pending : List (Nat × Nat)) :
    ∀ (s : server P) (closed : List Int),
      (pending.foldl (fun acc c =>
        ((server.accept_connection { FD := (c.1 : Int), addr := c.2 } acc.1).1,
         acc.2 ++ socket.destroy
           (server.accept_connection { FD := (c.1 : Int), addr := c.2 } acc.1).2.FD))
        (s, closed)).1.w2m_queue = s.w2m_queue ∧
      (pending.foldl (fun acc c =>
        ((server.accept_connection { FD := (c.1 : Int), addr := c.2 } acc.1).1,
         acc.2 ++ socket.destroy
           (server.accept_connection { FD := (c.1 : Int), addr := c.2 } acc.1).2.FD))
        (s, closed)).1.m2w_queue = s.m2w_queue ∧
      ∃ fresh : List (server_instance P),
        (pending.foldl (fun acc c =>
          ((server.accept_connection { FD := (c.1 : Int), addr := c.2 } acc.1).1,
           acc.2 ++ socket.destroy
             (server.accept_connection { FD := (c.1 : Int), addr := c.2 } acc.1).2.FD))
          (s, closed)).1.instances = fresh ++ s.instances ∧
        (∀ x ∈ fresh, x.use_lock = false ∧ s.next_id ≤ x.id) ∧
        fresh.length = pending.length := by
  induction pending with
  | nil =>
    intro s closed
    exact ⟨rfl, rfl, [], rfl, by simp, rfl⟩
  | cons c rest ih =>
    intro s closed
    simp only [List.foldl_cons]
    obtain ⟨h1, h2, fresh, h3, h4, h5⟩ :=
      ih (server.accept_connection { FD := (c.1 : Int), addr := c.2 } s).1
        (closed ++ socket.destroy
          (server.accept_connection { FD := (c.1 : Int), addr := c.2 } s).2.FD)
    refine ⟨h1, h2, fresh ++ [(server_instance.mk s.next_id
        (connection.move { FD := (c.1 : Int), addr := c.2 }).1 (s.pib ()) false)], ?_, ?_, ?_⟩
    · rw [h3]
      simp [server.accept_connection]
    · intro x hx
      rcases List.mem_append.mp hx with hx | hx
      · have := h4 x hx
        simp only [server.accept_connection] at this
        exact ⟨this.1, by omega⟩
      · simp only [List.mem_singleton] at hx
        subst hx
        exact ⟨rfl, le_refl _⟩
    · simp [h5]

/-- The accept step of the master cycle: it returns with the pending queue
empty, leaves both message queues alone and puts the new instances, none of
them locked, in front of the registry. -/
theorem master_accept_step {P : Type} (fuel : Nat) (pending : List (Nat × Nat)) (s : server P)
    (hfuel : pending.length < fuel) :
    ∃ (s1 : server P) (closed : List Int) (fresh : List (server_instance P)),
      listener.accept queue_accept4 server.accept_connection fuel pending s []
        = some ([], s1, closed) ∧
      s1.w2m_queue = s.w2m_queue ∧ s1.m2w_queue = s.m2w_queue ∧
      s1.instances = fresh ++ s.instances ∧ (∀ x ∈ fresh, x.use_lock = false) := by
  obtain ⟨hw, hm, fresh, hinst, hfresh, _⟩ := accept_connection_foldl pending s []
  exact ⟨_, _, fresh, accept_loop_eq server.accept_connection pending fuel s [] hfuel,
    hw, hm, hinst, fun x hx => (hfresh x hx).1⟩

/-- Whenever a master cycle completes, no instance named by a result message
with the terminate bit is left in the registry. -/
theorem master_loop_absent {P : Type} (terminate fuel : Nat)
    (pending : List (Nat × Nat)) (s : server P) (hfuel : pending.length < fuel) :
    ∀ r, server.master_loop terminate fuel pending s = some r →
      ∀ msg ∈ s.w2m_queue, msg.sig.m &&& terminate ≠ 0 →
        ∀ x ∈ r.2.instances, x.id ≠ msg.i := by
  obtain ⟨s1, closed, fresh, hacc, hw, hm, hinst, hfresh⟩ := master_accept_step fuel pending s hfuel
  intro r hr
  simp only [server.master_loop, hacc] at hr
  cases hd : server.drain_w2m terminate s1.w2m_queue s1.instances with
  | none => simp [hd] at hr
  | some result =>
    simp only [hd, Option.some.injEq] at hr
    subst hr
    have hres := drain_w2m_eq_filter terminate _ _ _ hd
    intro msg hmsg hterm x hx heq
    have hx2 : x ∈ result := hx
    rw [hres] at hx2
    have hp := (List.mem_filter.mp hx2).2
    simp only [Bool.not_eq_true', List.any_eq_false, Bool.and_eq_true, beq_iff_eq,
      decide_eq_true_eq, not_and] at hp
    exact hp msg (hw ▸ hmsg) heq.symm hterm

/-- A master cycle completes when no instance that a terminate result names
has its `use_lock` held. -/
theorem master_loop_completes {P : Type} (terminate fuel : Nat)
    (pending : List (Nat × Nat)) (s : server P) (hfuel : pending.length < fuel)
    (hfree : ∀ x ∈ s.instances, x.use_lock = true →
      ∀ msg ∈ s.w2m_queue, msg.i = x.id → msg.sig.m &&& terminate = 0) :
    ∃ r, server.master_loop terminate fuel pending s = some r := by
  obtain ⟨s1, closed, fresh, hacc, hw, hm, hinst, hfresh⟩ := master_accept_step fuel pending s hfuel
  have hfree1 : ∀ x ∈ s1.instances, x.use_lock = true →
      ∀ msg ∈ s1.w2m_queue, msg.i = x.id → msg.sig.m &&& terminate = 0 := by
    intro x hx hl msg hmsg heq
    rw [hinst] at hx
    rcases List.mem_append.mp hx with hx | hx
    · have := hfresh x hx
      rw [this] at hl
      exact absurd hl (by decide)
    · exact hfree x hx hl msg (hw ▸ hmsg) heq
  obtain ⟨result, hd⟩ := drain_w2m_returns terminate _ _ hfree1
  refine ⟨([], { s1 with
    instances := result
    w2m_queue := []
    m2w_queue := s1.m2w_queue ++ result.map (fun x => { i := x.id, r := reason.pulse }) }), ?_⟩
  simp only [server.master_loop, hacc, hd]

/-- C7: one master cycle (`server::master_loop`, given more fuel than pending
connections).  Whenever the cycle completes: every instance named by a result
message whose signal has the terminate bit is absent from the registry, the
worker-to-master queue is empty, the pulses the cycle appended are exactly one
per instance left in the registry (none of them naming a terminated instance),
and an instance with no terminate result in the queue is still in the
registry.  The cycle completes when no instance that a terminate result names
has its `use_lock` held. -/
theorem master_loop_removes_terminated {P : Type} (terminate fuel : Nat)
    (pending : List (Nat × Nat)) (s : server P) (hfuel : pending.length < fuel) :
    (∀ r, server.master_loop terminate fuel pending s = some r →
      r.1 = [] ∧
      (∀ msg ∈ s.w2m_queue, msg.sig.m &&& terminate ≠ 0 →
        ∀ x ∈ r.2.instances, x.id ≠ msg.i) ∧
      r.2.w2m_queue = [] ∧
      r.2.m2w_queue
        = s.m2w_queue ++ r.2.instances.map (fun x => { i := x.id, r := reason.pulse }) ∧
      (∀ msg ∈ s.w2m_queue, msg.sig.m &&& terminate ≠ 0 →
        ∀ p ∈ r.2.instances.map (fun x => ({ i := x.id, r := reason.pulse } : m2w_message)),
          p.i ≠ msg.i) ∧
      (∀ x ∈ s.instances,
        (∀ msg ∈ s.w2m_queue, msg.i = x.id → msg.sig.m &&& terminate = 0) →
        x ∈ r.2.instances)) ∧
    ((∀ x ∈ s.instances, x.use_lock = true →
        ∀ msg ∈ s.w2m_queue, msg.i = x.id → msg.sig.m &&& terminate = 0) →
      ∃ r, server.master_loop terminate fuel pending s = some r) := by
  obtain ⟨s1, closed, fresh, hacc, hw, hm, hinst, hfresh⟩ := master_accept_step fuel pending s hfuel
  refine ⟨?_, master_loop_completes terminate fuel pending s hfuel⟩
  intro r hr
  have habsent := master_loop_absent terminate fuel pending s hfuel r hr
  simp only [server.master_loop, hacc] at hr
  cases hd : server.drain_w2m terminate s1.w2m_queue s1.instances with
  | none => simp [hd] at hr
  | some result =>
    simp only [hd, Option.some.injEq] at hr
    subst hr
    have hres := drain_w2m_eq_filter terminate _ _ _ hd
    refine ⟨rfl, habsent, rfl, by simp [hm], ?_, ?_⟩
    · intro msg hmsg hterm p hp
      obtain ⟨x, hx, rfl⟩ := List.mem_map.mp hp
      exact habsent msg hmsg hterm x hx
    · intro x hx hclear
      show x ∈ result
      rw [hres]
      apply List.mem_filter.mpr
      refine ⟨by rw [hinst]; exact List.mem_append_right _ hx, ?_⟩
      simp only [Bool.not_eq_true', List.any_eq_false, Bool.and_eq_true, beq_iff_eq,
        decide_eq_true_eq, not_and]
      intro msg hmsg heq hterm
      exact hterm (hclear msg (hw ▸ hmsg) heq)

/-- Witness for C7: in `demo_server` the result for instance 1 carries the
terminate bit; the cycle completes and instance 1 is gone. -/
theorem master_loop_removes_terminated_witness :
    ∃ r, server.master_loop 1 1 [] demo_server = some r ∧ r.2.w2m_queue = [] ∧
      ∀ x ∈ r.2.instances, x.id ≠ 1 := by
  have h := master_loop_removes_terminated 1 1 [] demo_server (by decide)
  obtain ⟨r, hr⟩ := h.2 (by decide)
  exact ⟨r, hr, (h.1 r hr).2.2.1,
    (h.1 r hr).2.1 { i := 1, sig := { m := 1 } } (by simp [demo_server]) (by decide)⟩

/-- Setting the bits of a mask and then testing them finds them. -/
theorem or_and_self_mask (a t : Nat) : (a ||| t) &&& t = t := by
  apply Nat.eq_of_testBit_eq
  intro i
  simp only [Nat.testBit_and, Nat.testBit_or]
  cases a.testBit i <;> cases t.testBit i <;> rfl

/-- C10: when the pulse a worker dequeues names an instance that no longer
exists, or one whose `use_lock` is held, the iteration only removes the pulse:
the pulse queue loses exactly that message, the result queue and the registry
are unchanged, and the outcome does not depend on the protocol entry point. -/
theorem worker_skips_busy_or_gone {P : Type} (terminate : Nat) (sig_init : signal)
    (ready : P → connection → detail → ready_outcome P) (s : server P)
    (msg : m2w_message) (queue : List m2w_message)
    (hq : s.m2w_queue = msg :: queue)
    (hbusy : s.instances.find? (fun x => x.id == msg.i) = none ∨
      ∃ inst, s.instances.find? (fun x => x.id == msg.i) = some inst ∧ inst.use_lock = true) :
    ∃ s1, server.worker_iteration terminate sig_init ready s = some s1 ∧
      s1 = { s with m2w_queue := queue } ∧
      s1.m2w_queue = queue ∧ s1.m2w_queue.length + 1 = s.m2w_queue.length ∧
      s1.w2m_queue = s.w2m_queue ∧ s1.instances = s.instances ∧
      ∀ ready2 : P → connection → detail → ready_outcome P,
        server.worker_iteration terminate sig_init ready2 s = some s1 := by
  have key : ∀ rd : P → connection → detail → ready_outcome P,
      server.worker_iteration terminate sig_init rd s = some { s with m2w_queue := queue } := by
    intro rd
    unfold server.worker_iteration
    rw [hq]
    rcases hbusy with hnone | ⟨inst, hsome, hlock⟩
    · simp only [hnone]
    · simp only [hsome, hlock, if_true]
  exact ⟨_, key ready, rfl, rfl, by simp [hq], rfl, rfl, key⟩

/-- Witness for C10: the pulse for the locked instance 1 of `busy_server` is dropped. -/
theorem worker_skips_busy_or_gone_witness :
    ∃ s1, server.worker_iteration 1 { m := 0 } throwing_ready busy_server = some s1 ∧
      s1.m2w_queue = [{ i := 2, r := reason.pulse }] ∧
      s1.w2m_queue = busy_server.w2m_queue ∧ s1.instances = busy_server.instances := by
  obtain ⟨s1, h1, _, h3, _, h5, h6, _⟩ :=
    worker_skips_busy_or_gone 1 { m := 0 } throwing_ready busy_server
      { i := 1, r := reason.pulse } [{ i := 2, r := reason.pulse }] rfl
      (Or.inr ⟨{ id := 1, con := { FD := 7, addr := 100 }, proto := 0, use_lock := true },
        rfl, rfl⟩)
  exact ⟨s1, h1, h3, h5, h6⟩

/-- The iteration of the worker loop on a pulse whose instance exists and whose
`use_lock` is free: the pulse is taken, the instance is put back unlocked with
what the protocol left, and one result message is appended. -/
theorem worker_iteration_claimed {P : Type} (terminate : Nat) (sig_init : signal)
    (ready : P → connection → detail → ready_outcome P) (s : server P)
    (msg : m2w_message) (queue : List m2w_message) (inst : server_instance P)
    (hq : s.m2w_queue = msg :: queue)
    (hfind : s.instances.find? (fun x => x.id == msg.i) = some inst)
    (hlock : inst.use_lock = false) (sig : signal) (proto : P) (con : connection)
    (hafter : (match ready inst.proto inst.con { r := msg.r } with
        | ready_outcome.returns sig1 proto1 con1 => (sig1, proto1, con1)
        | ready_outcome.throws proto1 con1 =>
          ({ sig_init with m := sig_init.m ||| terminate }, proto1, con1)) = (sig, proto, con)) :
    server.worker_iteration terminate sig_init ready s
      = some { s with
          m2w_queue := queue
          instances := s.instances.map (fun x =>
            if x.id == inst.id then
              { inst with proto := proto, con := con, use_lock := false } else x)
          w2m_queue := s.w2m_queue ++ [{ i := msg.i, sig := sig }] } := by
  unfold server.worker_iteration
  rw [hq]
  simp only [hfind, hlock, Bool.false_eq_true, if_false]
  rw [hafter]

/-- C8: for a pulse whose instance exists and whose `use_lock` the worker
acquires (the terminate mask being a non-zero bit mask): when the protocol
entry point throws, the iteration still returns, the lock is released and
exactly one result message for the instance is appended, its signal having the
terminate bit; when the entry point returns `sig`, the appended result message
carries exactly `sig`.  After the throwing case the next master cycle
completes (if it was not going to wait on a held lock before) and the instance
is no longer in the registry. -/
theorem worker_fault_becomes_terminate {P : Type} (terminate : Nat) (hterm : terminate ≠ 0)
    (sig_init : signal) (ready : P → connection → detail → ready_outcome P) (s : server P)
    (msg : m2w_message) (queue : List m2w_message) (inst : server_instance P)
    (hq : s.m2w_queue = msg :: queue)
    (hfind : s.instances.find? (fun x => x.id == msg.i) = some inst)
    (hlock : inst.use_lock = false) :
    (∀ proto con, ready inst.proto inst.con { r := msg.r } = ready_outcome.throws proto con →
      ∃ s1, server.worker_iteration terminate sig_init ready s = some s1 ∧
        s1.m2w_queue = queue ∧
        (∃ sig, s1.w2m_queue = s.w2m_queue ++ [{ i := msg.i, sig := sig }] ∧
          sig.m &&& terminate ≠ 0) ∧
        (∀ x ∈ s1.instances, x.id = msg.i → x.use_lock = false) ∧
        ((∀ x ∈ s.instances, x.use_lock = true →
            ∀ m ∈ s.w2m_queue, m.i = x.id → m.sig.m &&& terminate = 0) →
          ∀ fuel pending, List.length pending < fuel →
            ∃ r, server.master_loop terminate fuel pending s1 = some r ∧
              ∀ x ∈ r.2.instances, x.id ≠ msg.i)) ∧
    (∀ sig proto con,
      ready inst.proto inst.con { r := msg.r } = ready_outcome.returns sig proto con →
      ∃ s1, server.worker_iteration terminate sig_init ready s = some s1 ∧
        s1.m2w_queue = queue ∧
        s1.w2m_queue = s.w2m_queue ++ [{ i := msg.i, sig := sig }] ∧
        (∀ x ∈ s1.instances, x.id = msg.i → x.use_lock = false)) := by
  have hid : inst.id = msg.i := by
    have := List.find?_some hfind
    simpa using this
  have hunlocked : ∀ (proto : P) (con : connection),
      ∀ x ∈ s.instances.map (fun x =>
          if x.id == inst.id then
            { inst with proto := proto, con := con, use_lock := false } else x),
        (x.id = msg.i → x.use_lock = false) ∧
        (x.use_lock = true → x ∈ s.instances ∧ x.id ≠ msg.i) := by
    intro proto con x hx
    obtain ⟨y, hy, rfl⟩ := List.mem_map.mp hx
    by_cases hy2 : y.id = inst.id
    · simp [hy2]
    · simp only [beq_iff_eq, hy2, if_false]
      exact ⟨fun h => absurd (h.trans hid.symm) hy2, fun _ => ⟨hy, fun h => hy2 (h.trans hid.symm)⟩⟩
  constructor
  · intro proto con hthrow
    have hrun := worker_iteration_claimed terminate sig_init ready s msg queue inst hq hfind
      hlock { sig_init with m := sig_init.m ||| terminate } proto con (by rw [hthrow])
    have hbit : (sig_init.m ||| terminate) &&& terminate ≠ 0 := by
      rw [or_and_self_mask]
      exact hterm
    refine ⟨_, hrun, rfl, ⟨_, rfl, hbit⟩, fun x hx => (hunlocked proto con x hx).1, ?_⟩
    intro hfree fuel pending hfuel
    have hgo : ∃ r, server.master_loop terminate fuel pending
        { s with
          m2w_queue := queue
          instances := s.instances.map (fun x =>
            if x.id == inst.id then
              { inst with proto := proto, con := con, use_lock := false } else x)
          w2m_queue := s.w2m_queue ++
            [{ i := msg.i, sig := { sig_init with m := sig_init.m ||| terminate } }] }
        = some r := by
      apply master_loop_completes terminate fuel pending _ hfuel
      intro x hx hl m hm heq
      obtain ⟨hxs, hne⟩ := (hunlocked proto con x hx).2 hl
      rcases List.mem_append.mp hm with hm | hm
      · exact hfree x hxs hl m hm heq
      · simp only [List.mem_singleton] at hm
        subst hm
        exact absurd heq.symm hne
    obtain ⟨r, hr⟩ := hgo
    refine ⟨r, hr, ?_⟩
    exact master_loop_absent terminate fuel pending _ hfuel r hr
      { i := msg.i, sig := { sig_init with m := sig_init.m ||| terminate } }
      (List.mem_append_right _ (List.mem_singleton.mpr rfl)) hbit
  · intro sig proto con hret
    have hrun := worker_iteration_claimed terminate sig_init ready s msg queue inst hq hfind
      hlock sig proto con (by rw [hret])
    exact ⟨_, hrun, rfl, rfl, fun x hx => (hunlocked proto con x hx).1⟩

/-- Witness for C8: on `demo_server` the pulse for instance 1 yields a result
with the terminate bit when the protocol throws, and the result 4 when the
protocol returns the signal 4. -/
theorem worker_fault_becomes_terminate_witness :
    (∃ s1, server.worker_iteration 1 { m := 0 } throwing_ready demo_server = some s1 ∧
      s1.m2w_queue = [{ i := 2, r := reason.pulse }] ∧
      (∃ sig, s1.w2m_queue = demo_server.w2m_queue ++ [{ i := 1, sig := sig }] ∧
        sig.m &&& 1 ≠ 0)) ∧
    (∃ s1, server.worker_iteration 1 { m := 0 } returning_ready demo_server = some s1 ∧
      s1.w2m_queue = demo_server.w2m_queue ++ [{ i := 1, sig := { m := 4 } }]) := by
  constructor
  · obtain ⟨s1, h1, h2, h3, _, _⟩ :=
      (worker_fault_becomes_terminate 1 (by decide) { m := 0 } throwing_ready demo_server
        { i := 1, r := reason.pulse } [{ i := 2, r := reason.pulse }]
        { id := 1, con := { FD := 7, addr := 100 }, proto := 0, use_lock := false }
        rfl rfl rfl).1 0 { FD := 7, addr := 100 } rfl
    exact ⟨s1, h1, h2, h3⟩
  · obtain ⟨s1, h1, _, h3, _⟩ :=
      (worker_fault_becomes_terminate 1 (by decide) { m := 0 } returning_ready demo_server
        { i := 1, r := reason.pulse } [{ i := 2, r := reason.pulse }]
        { id := 1, con := { FD := 7, addr := 100 }, proto := 0, use_lock := false }
        rfl rfl rfl).2 { m := 4 } 0 { FD := 7, addr := 100 } rfl
    exact ⟨s1, h1, h3⟩

end asterid.cicada
